import Mathlib

/-!
Verification of the Uganda administrative-unit search library (`src/index.ts`)
against its natural-language specification.

The TypeScript source is shallowly embedded below.  Pure functions become
Lean functions; the module-level state (the five reference collections and
the five Fuse.js instances) becomes an explicit `Env` record threaded through
every function.  JavaScript numbers are modelled as rationals (`ℚ`); the
five Fuse.js fuzzy indexes are third-party library code, so each is modelled
as an oracle function stored in `Env` (item list together with a raw
dissimilarity score), constrained by hypotheses where a claim depends on the
library's documented behaviour.  Fallible code paths (the `TypeError` thrown
when `termResults[0]` is `undefined`) are modelled with `Option`.
-/

namespace LocUg

/-- JavaScript whitespace (`\s`), restricted to the ASCII range that can occur
in queries: space, tab, line feed, vertical tab, form feed, carriage return. -/
def isWS (c : Char) : Bool :=
  c = ' ' || c = '\t' || c = '\n' || c = '\x0b' || c = '\x0c' || c = '\r'

/-- `String.prototype.toLowerCase`, ASCII range (reference names are ASCII). -/
def lowerStr (s : String) : String :=
  ⟨s.data.map Char.toLower⟩

/-- `String.prototype.trim`: strip whitespace from both ends (on char lists). -/
def trimChars (l : List Char) : List Char :=
  ((l.dropWhile isWS).reverse.dropWhile isWS).reverse

/-- `String.prototype.trim` on strings. -/
def strTrim (s : String) : String :=
  ⟨trimChars s.data⟩

/-- Does `hay` start with `sub`? (helper for substring containment). -/
def startsList : List Char → List Char → Bool
  | _, [] => true
  | [], _ :: _ => false
  | a :: as, b :: bs => a == b && startsList as bs

/-- `String.prototype.includes`: `sub` occurs contiguously inside `hay`. -/
def hasSub : List Char → List Char → Bool
  | [], sub => startsList [] sub
  | hay@(_ :: t), sub => startsList hay sub || hasSub t sub

/-- `Array.prototype.slice(0, stop)`: a nonnegative `stop` keeps the first
`stop` elements; a negative `stop` keeps all but the last `|stop|` elements. -/
def jsSlice (stop : Int) (l : List α) : List α :=
  if stop < 0 then l.take (l.length - stop.natAbs) else l.take stop.toNat

/-- `Number.prototype.toFixed(3)`, as the numeric value of the produced
string: round to the nearest thousandth, ties away from zero toward `+∞`
(Mathlib's `round` is `⌊x + 1/2⌋`, which matches the ECMAScript rule of
picking the larger of two equally close integers). -/
def toFixed3 (q : ℚ) : ℚ :=
  (round (q * 1000) : ℤ) / 1000

/-! ## Data model (`interface` declarations in `src/index.ts`) -/

structure District where
  id : String
  name : String
deriving DecidableEq, Repr

structure County where
  id : String
  name : String
  district : String
deriving DecidableEq, Repr

structure SubCounty where
  id : String
  name : String
  county : String
deriving DecidableEq, Repr

structure Parish where
  id : String
  name : String
  subcounty : String
deriving DecidableEq, Repr

structure Village where
  id : String
  name : String
  parish : String
deriving DecidableEq, Repr

/-- The `type` field of `SearchResult`:
`"district" | "county" | "subCounty" | "parish" | "village"`. -/
inductive Level where
  | district | county | subCounty | parish | village
deriving DecidableEq, Repr

/-- The display-name fragments spread into results by `getDistrictHierarchy`
.. `getVillageHierarchy` (an absent JS key is `none`). -/
structure HierNames where
  village : Option String
  parish : Option String
  subCounty : Option String
  county : Option String
  district : Option String
deriving DecidableEq, Repr

/-- Return type of `getHierarchyChain` (an absent / `undefined` key is `none`). -/
structure HierarchyChain where
  districtId : Option String
  countyId : Option String
  subCountyId : Option String
  parishId : Option String
  villageId : Option String
deriving DecidableEq, Repr

/-- The all-absent chain `{}`. -/
def emptyChain : HierarchyChain :=
  ⟨none, none, none, none, none⟩

/-- `SearchResult` produced by `fuzzySearchSingleTerm` (the `score` field holds
the similarity `1 - fuseScore`; `hier` holds the spread hierarchy names). -/
structure SearchResult where
  type : Level
  id : String
  name : String
  score : ℚ
  matchedTerm : Option String
  hier : HierNames
deriving DecidableEq, Repr

/-- Result shape pushed by `exactSearchAdministrativeUnits` (no score). -/
structure ExactResult where
  type : Level
  id : String
  name : String
  hier : HierNames
deriving DecidableEq, Repr

/-- Element of `combinedResults` in the multi-term branch:
`SearchResult & { matchCount, hierarchyBonus, combinedScore }`
(the spread `...firstResult` is kept whole in `base`). -/
structure CombinedResult where
  base : SearchResult
  matchCount : Nat
  hierarchyBonus : ℚ
  combinedScore : ℚ
deriving DecidableEq, Repr

structure MatchInfo where
  matchedTerms : Nat
  totalTerms : Nat
  /-- numeric value of `combinedScore.toFixed(3)` (a string in the source). -/
  confidence : ℚ
deriving DecidableEq, Repr

/-- Final multi-term result: the seed minus the destructured-away fields
(`matchCount`, `hierarchyBonus`, `combinedScore`, `matchedTerm`), plus
`matchInfo`. -/
structure RankedResult where
  type : Level
  id : String
  name : String
  score : ℚ
  hier : HierNames
  matchInfo : MatchInfo
deriving DecidableEq, Repr

/-- `searchAdministrativeUnits` returns `SearchResult[]` for single-term
queries and the `matchInfo`-carrying array for multi-term queries. -/
inductive SearchOutput where
  | singleTerm : List SearchResult → SearchOutput
  | multiTerm : List RankedResult → SearchOutput
deriving DecidableEq, Repr

/-- Module-level state: the five reference collections and the five Fuse.js
instances.  Each `*Fuse` oracle models `fuse.search(term, { limit })`: given
the term and the `limit` option it returns `{ item, score }` pairs (`score`
is Fuse's dissimilarity; `includeScore: true` makes it always present, so the
source's `result.score || 0` is just the score). -/
structure Env where
  districts : List District
  counties : List County
  subCounties : List SubCounty
  parishes : List Parish
  villages : List Village
  districtFuse : String → Int → List (District × ℚ)
  countyFuse : String → Int → List (County × ℚ)
  subCountyFuse : String → Int → List (SubCounty × ℚ)
  parishFuse : String → Int → List (Parish × ℚ)
  villageFuse : String → Int → List (Village × ℚ)

/-- `Map` lookup for a map built by `forEach`/`set` over a list: the *last*
entry with the key wins (later `set` calls overwrite earlier ones). -/
def lastFind (p : α → Bool) (l : List α) : Option α :=
  l.foldl (fun acc x => if p x then some x else acc) none

/-- `districtMap.get id`. -/
def dGet (env : Env) (id : String) : Option District :=
  lastFind (fun d => d.id == id) env.districts

/-- `countyMap.get id`. -/
def cGet (env : Env) (id : String) : Option County :=
  lastFind (fun c => c.id == id) env.counties

/-- `subCountyMap.get id`. -/
def sGet (env : Env) (id : String) : Option SubCounty :=
  lastFind (fun s => s.id == id) env.subCounties

/-- `parishMap.get id`. -/
def pGet (env : Env) (id : String) : Option Parish :=
  lastFind (fun p => p.id == id) env.parishes

/-- `villages.find(v => v.id === id)` — the *first* match (no village map). -/
def vFind (env : Env) (id : String) : Option Village :=
  env.villages.find? (fun v => v.id == id)

/-! ## Hierarchy display-name accessors -/

def getDistrictHierarchy (env : Env) (districtId : String) : HierNames :=
  match dGet env districtId with
  | some d => ⟨none, none, none, none, some d.name⟩
  | none => ⟨none, none, none, none, none⟩

def getCountyHierarchy (env : Env) (countyId : String) : HierNames :=
  match cGet env countyId with
  | none => ⟨none, none, none, none, none⟩
  | some c =>
    ⟨none, none, none, some c.name, (dGet env c.district).map District.name⟩

def getSubCountyHierarchy (env : Env) (subCountyId : String) : HierNames :=
  match sGet env subCountyId with
  | none => ⟨none, none, none, none, none⟩
  | some s =>
    let county := cGet env s.county
    let district := county.bind (fun c => dGet env c.district)
    ⟨none, none, some s.name, county.map County.name, district.map District.name⟩

def getParishHierarchy (env : Env) (parishId : String) : HierNames :=
  match pGet env parishId with
  | none => ⟨none, none, none, none, none⟩
  | some p =>
    let subCounty := sGet env p.subcounty
    let county := subCounty.bind (fun s => cGet env s.county)
    let district := county.bind (fun c => dGet env c.district)
    ⟨none, some p.name, subCounty.map SubCounty.name, county.map County.name,
      district.map District.name⟩

def getVillageHierarchy (env : Env) (v : Village) : HierNames :=
  let parish := pGet env v.parish
  let subCounty := parish.bind (fun p => sGet env p.subcounty)
  let county := subCounty.bind (fun s => cGet env s.county)
  let district := county.bind (fun c => dGet env c.district)
  ⟨some v.name, parish.map Parish.name, subCounty.map SubCounty.name,
    county.map County.name, district.map District.name⟩

/-! ## `getHierarchyChain` -/

def getHierarchyChain (env : Env) (type : Level) (id : String) : HierarchyChain :=
  match type with
  | .district => ⟨some id, none, none, none, none⟩
  | .county =>
    match cGet env id with
    | some county => ⟨some county.district, some id, none, none, none⟩
    | none => emptyChain
  | .subCounty =>
    match sGet env id with
    | none => emptyChain
    | some subCounty =>
      let county := cGet env subCounty.county
      ⟨county.map County.district, some subCounty.county, some id, none, none⟩
  | .parish =>
    match pGet env id with
    | none => emptyChain
    | some parish =>
      let subCounty := sGet env parish.subcounty
      let county := subCounty.bind (fun s => cGet env s.county)
      ⟨county.map County.district, subCounty.map SubCounty.county,
        some parish.subcounty, some id, none⟩
  | .village =>
    match vFind env id with
    | none => emptyChain
    | some village =>
      let parish := pGet env village.parish
      let subCounty := parish.bind (fun p => sGet env p.subcounty)
      let county := subCounty.bind (fun s => cGet env s.county)
      ⟨county.map County.district, subCounty.map SubCounty.county,
        parish.map Parish.subcounty, some village.parish, some id⟩

/-- JavaScript truthiness of an optional string field: `undefined` and the
empty string are falsy. -/
def truthy : Option String → Bool
  | none => false
  | some s => !(s == "")

/-- `areRelated`: each disjunct guards `chain1`'s field for truthiness, then
compares with `===` (`Option` equality models string-vs-`undefined` compare). -/
def areRelated (env : Env) (r1 r2 : SearchResult) : Bool :=
  let chain1 := getHierarchyChain env r1.type r1.id
  let chain2 := getHierarchyChain env r2.type r2.id
  (truthy chain1.districtId && chain1.districtId == chain2.districtId) ||
  (truthy chain1.countyId && chain1.countyId == chain2.countyId) ||
  (truthy chain1.subCountyId && chain1.subCountyId == chain2.subCountyId) ||
  (truthy chain1.parishId && chain1.parishId == chain2.parishId)

/-! ## Query parsing

`parseQuery` splits on the regex `/[,;]|\s+in\s+|\s+at\s+/i`.  The scanner
below reproduces the regex engine's leftmost-match scan.  For the word
alternatives, the greedy leading `\s+` must consume the whole whitespace run
(taking fewer characters would leave a whitespace character where the letter
is required, so no backtracked shorter attempt can succeed). -/

/-- Try to match `\\s+in\\s+` or `\\s+at\\s+` (case-insensitive) at the head of
`l`; on success return the suffix of `l` after the greedily-matched separator
(packaged with the termination fact that the separator consumed at least one
character). -/
def matchWordSep : (l : List Char) → Option {r : List Char // r.length < l.length}
  | [] => none
  | c :: cs =>
    if isWS c then
      match hdw : cs.dropWhile isWS with
      | a :: b :: d :: tl =>
        if ((a.toLower == 'i' && b.toLower == 'n') ||
            (a.toLower == 'a' && b.toLower == 't')) && isWS d then
          some ⟨(d :: tl).dropWhile isWS, by
            have h1 : (List.dropWhile isWS (d :: tl)).length ≤ (d :: tl).length :=
              (List.dropWhile_sublist isWS).length_le
            have h2 : (List.dropWhile isWS cs).length ≤ cs.length :=
              (List.dropWhile_sublist isWS).length_le
            rw [hdw] at h2
            simp only [List.length_cons] at h1 h2 ⊢
            omega⟩
        else none
      | _ => none
    else none

/-- The segment scanner behind `String.prototype.split` for the separator
regex: `seg` accumulates the current segment's characters in reverse. -/
def splitGo (l : List Char) (seg : List Char) : List (List Char) :=
  match l with
  | [] => [seg.reverse]
  | c :: cs =>
    if c = ',' || c = ';' then
      seg.reverse :: splitGo cs []
    else
      match matchWordSep (c :: cs) with
      | some rest => seg.reverse :: splitGo rest.1 []
      | none => splitGo cs (c :: seg)
termination_by l.length
decreasing_by
  · simp
  · exact rest.2
  · simp

/-- `parseQuery`: split on the separators, `trim` each segment, drop empty
segments. -/
def parseQuery (query : String) : List String :=
  (((splitGo query.data []).map trimChars).filter
      (fun seg => decide (0 < seg.length))).map
    (fun seg => (⟨seg⟩ : String))

/-! ## Single-term fuzzy search -/

/-- `fuzzySearchSingleTerm` (source default `maxResults = 50`; the default is
never used — callers always pass a value).  Pushes districts, then counties,
sub-counties, parishes, villages; each hit's `score` becomes the similarity
`1 - result.score` (with `includeScore: true` the raw score is always
present, so `result.score || 0` is the raw score itself). -/
def fuzzySearchSingleTerm (env : Env) (term : String) (maxResults : Int) :
    List SearchResult :=
  ((env.districtFuse term maxResults).map (fun it =>
    ⟨.district, it.1.id, it.1.name, 1 - it.2, some term,
      getDistrictHierarchy env it.1.id⟩)) ++
  ((env.countyFuse term maxResults).map (fun it =>
    ⟨.county, it.1.id, it.1.name, 1 - it.2, some term,
      getCountyHierarchy env it.1.id⟩)) ++
  ((env.subCountyFuse term maxResults).map (fun it =>
    ⟨.subCounty, it.1.id, it.1.name, 1 - it.2, some term,
      getSubCountyHierarchy env it.1.id⟩)) ++
  ((env.parishFuse term maxResults).map (fun it =>
    ⟨.parish, it.1.id, it.1.name, 1 - it.2, some term,
      getParishHierarchy env it.1.id⟩)) ++
  ((env.villageFuse term maxResults).map (fun it =>
    ⟨.village, it.1.id, it.1.name, 1 - it.2, some term,
      getVillageHierarchy env it.1⟩))

/-! ## Multi-term combination -/

/-- Body of the per-seed loop over the pools of terms `2..N`: state is
`(matchCount, totalScore, hierarchyBonus)`; `find` takes the *first* related
candidate of the pool, and a hit assigns `hierarchyBonus = 1.5`. -/
def seedStep (env : Env) (seed : SearchResult) (st : Nat × ℚ × ℚ)
    (pool : List SearchResult) : Nat × ℚ × ℚ :=
  match pool.find? (fun r => areRelated env seed r) with
  | some m => (st.1 + 1, st.2.1 + m.score, 3/2)
  | none => st

/-- One entry of `combinedResults`: fold the seed loop from
`(1, seed.score, 1.0)` over the pools of the remaining terms, then
`combinedScore = (totalScore / n) * hierarchyBonus * (matchCount / n)`. -/
def combineSeed (env : Env) (n : Nat) (restPools : List (List SearchResult))
    (seed : SearchResult) : CombinedResult :=
  let st := restPools.foldl (seedStep env seed) (1, seed.score, 1)
  let avgScore := st.2.1 / (n : ℚ)
  let combinedScore := avgScore * st.2.2 * ((st.1 : ℚ) / (n : ℚ))
  ⟨seed, st.1, st.2.2, combinedScore⟩

/-- `combinedResults`: seeds come from the first term's matches only; every
term's pool is fetched with the fixed per-level cap 30. -/
def multiCombined (env : Env) (terms : List String) : List CombinedResult :=
  let pools := terms.map (fun t => fuzzySearchSingleTerm env t 30)
  match pools with
  | [] => []
  | m1 :: restPools => m1.map (combineSeed env terms.length restPools)

/-- Single-term comparator `(a, b) => b.score - a.score` as the total
preorder it sorts by (similarity descending). -/
def scoreLE (a b : SearchResult) : Bool :=
  decide (b.score ≤ a.score)

/-- Multi-term comparator: `matchCount` descending first, then
`combinedScore` descending. -/
def rankLE (a b : CombinedResult) : Bool :=
  decide (b.matchCount < a.matchCount ∨
    (a.matchCount = b.matchCount ∧ b.combinedScore ≤ a.combinedScore))

/-- The final `.map` of the multi-term branch: destructure away `matchCount`,
`hierarchyBonus`, `combinedScore`, `matchedTerm`, attach `matchInfo` with
`confidence = combinedScore.toFixed(3)`. -/
def toRanked (totalTerms : Nat) (c : CombinedResult) : RankedResult :=
  ⟨c.base.type, c.base.id, c.base.name, c.base.score, c.base.hier,
    ⟨c.matchCount, totalTerms, toFixed3 c.combinedScore⟩⟩

/-- Multi-term branch: sort (`Array.prototype.sort` is stable, as is
`mergeSort`), truncate with `slice(0, maxResults)`, then map to the
`matchInfo` shape. -/
def multiSearch (env : Env) (terms : List String) (maxResults : Int) :
    List RankedResult :=
  (jsSlice maxResults ((multiCombined env terms).mergeSort rankLE)).map
    (toRanked terms.length)

/-- Single-term branch: sort by similarity descending, `slice(0, maxResults)`. -/
def singleSearch (env : Env) (term : String) (maxResults : Int) :
    List SearchResult :=
  jsSlice maxResults ((fuzzySearchSingleTerm env term maxResults).mergeSort scoreLE)

/-- `searchAdministrativeUnits` (source default `maxResults = 100`).  With no
parsed terms the source evaluates `termResults[0].matches` with
`termResults[0] === undefined` and throws a `TypeError`; that crash is
modelled as `none`. -/
def searchAdministrativeUnits (env : Env) (query : String) (maxResults : Int) :
    Option SearchOutput :=
  match parseQuery query with
  | [] => none
  | [t] => some (.singleTerm (singleSearch env t maxResults))
  | t1 :: t2 :: rest =>
    some (.multiTerm (multiSearch env (t1 :: t2 :: rest) maxResults))

/-- `exactSearchAdministrativeUnits`: guard on the falsiness of
`query.toLowerCase().trim()`, then case-insensitive substring filter over the
five collections in order. -/
def exactSearchAdministrativeUnits (env : Env) (query : String) :
    List ExactResult :=
  let lowerQuery := strTrim (lowerStr query)
  if lowerQuery = "" then [] else
  (env.districts.filter (fun d => hasSub (lowerStr d.name).data lowerQuery.data)).map
    (fun d => ⟨.district, d.id, d.name, getDistrictHierarchy env d.id⟩) ++
  (env.counties.filter (fun c => hasSub (lowerStr c.name).data lowerQuery.data)).map
    (fun c => ⟨.county, c.id, c.name, getCountyHierarchy env c.id⟩) ++
  (env.subCounties.filter (fun s => hasSub (lowerStr s.name).data lowerQuery.data)).map
    (fun s => ⟨.subCounty, s.id, s.name, getSubCountyHierarchy env s.id⟩) ++
  (env.parishes.filter (fun p => hasSub (lowerStr p.name).data lowerQuery.data)).map
    (fun p => ⟨.parish, p.id, p.name, getParishHierarchy env p.id⟩) ++
  (env.villages.filter (fun v => hasSub (lowerStr v.name).data lowerQuery.data)).map
    (fun v => ⟨.village, v.id, v.name, getVillageHierarchy env v⟩)

/-! ## Specification-side definitions (from the spec's words, for comparison
with the source-derived definitions above) -/

/-- Two optional identifiers "share a non-null identifier": both present,
equal, and (per JS truthiness) not the empty string. -/
def sharesNonNull : Option String → Option String → Bool
  | some a, some b => a == b && !(a == "")
  | _, _ => false

/-- Modelled from the spec (§4.5): two candidates are related iff their
chains share a non-null identifier at the L1 (district), L2 (county) or
L3 (sub-county) level — and at no other level. -/
def specRelatedL123 (env : Env) (r1 r2 : SearchResult) : Bool :=
  let c1 := getHierarchyChain env r1.type r1.id
  let c2 := getHierarchyChain env r2.type r2.id
  sharesNonNull c1.districtId c2.districtId ||
  sharesNonNull c1.countyId c2.countyId ||
  sharesNonNull c1.subCountyId c2.subCountyId

/-- Is the identifier known at the level (present in the level's map, or for
villages in the collection)? -/
def knownAt (env : Env) : Level → String → Bool
  | .district, id => (dGet env id).isSome
  | .county, id => (cGet env id).isSome
  | .subCounty, id => (sGet env id).isSome
  | .parish, id => (pGet env id).isSome
  | .village, id => (vFind env id).isSome

/-- The chain field at the unit's own level. -/
def ownId (ch : HierarchyChain) : Level → Option String
  | .district => ch.districtId
  | .county => ch.countyId
  | .subCounty => ch.subCountyId
  | .parish => ch.parishId
  | .village => ch.villageId

/-- Every ancestor level strictly above `lv` carries an identifier. -/
def ancestorsSome (ch : HierarchyChain) : Level → Prop
  | .district => True
  | .county => ch.districtId.isSome = true
  | .subCounty => ch.districtId.isSome = true ∧ ch.countyId.isSome = true
  | .parish => ch.districtId.isSome = true ∧ ch.countyId.isSome = true ∧
      ch.subCountyId.isSome = true
  | .village => ch.districtId.isSome = true ∧ ch.countyId.isSome = true ∧
      ch.subCountyId.isSome = true ∧ ch.parishId.isSome = true

/-- Truncation: above the unit's own level, once a level is missing from the
chain, every level above it is missing too. -/
def truncUp (ch : HierarchyChain) : Level → Prop
  | .district => True
  | .county => True
  | .subCounty => ch.countyId = none → ch.districtId = none
  | .parish => (ch.subCountyId = none → ch.countyId = none) ∧
      (ch.countyId = none → ch.districtId = none)
  | .village => (ch.parishId = none → ch.subCountyId = none) ∧
      (ch.subCountyId = none → ch.countyId = none) ∧
      (ch.countyId = none → ch.districtId = none)

/-- Well-formed reference data: every parent link resolves. -/
def WellFormedEnv (env : Env) : Prop :=
  (∀ c ∈ env.counties, (dGet env c.district).isSome = true) ∧
  (∀ s ∈ env.subCounties, (cGet env s.county).isSome = true) ∧
  (∀ p ∈ env.parishes, (sGet env p.subcounty).isSome = true) ∧
  (∀ v ∈ env.villages, (pGet env v.parish).isSome = true)

/-- Does a pool contain a candidate related to the seed? -/
def poolHasRelated (env : Env) (seed : SearchResult)
    (pool : List SearchResult) : Bool :=
  pool.any (fun r => areRelated env seed r)

/-- Similarity of the first candidate of a pool related to the seed
(0 when the pool has none). -/
def firstRelatedScore (env : Env) (seed : SearchResult)
    (pool : List SearchResult) : ℚ :=
  match pool.find? (fun r => areRelated env seed r) with
  | some m => m.score
  | none => 0

/-- Modelled from the spec (§4.2): the external fuzzy matcher accepts a hit
only when its dissimilarity is below the fixed threshold 0.4 (and at least
0), and an exact case-insensitive name match has dissimilarity 0. -/
def FuseScoreSpec (env : Env) : Prop :=
  (∀ t n it, it ∈ env.districtFuse t n →
    0 ≤ it.2 ∧ it.2 < 2/5 ∧ (lowerStr t = lowerStr it.1.name → it.2 = 0)) ∧
  (∀ t n it, it ∈ env.countyFuse t n →
    0 ≤ it.2 ∧ it.2 < 2/5 ∧ (lowerStr t = lowerStr it.1.name → it.2 = 0)) ∧
  (∀ t n it, it ∈ env.subCountyFuse t n →
    0 ≤ it.2 ∧ it.2 < 2/5 ∧ (lowerStr t = lowerStr it.1.name → it.2 = 0)) ∧
  (∀ t n it, it ∈ env.parishFuse t n →
    0 ≤ it.2 ∧ it.2 < 2/5 ∧ (lowerStr t = lowerStr it.1.name → it.2 = 0)) ∧
  (∀ t n it, it ∈ env.villageFuse t n →
    0 ≤ it.2 ∧ it.2 < 2/5 ∧ (lowerStr t = lowerStr it.1.name → it.2 = 0))

/-- Modelled from the spec / Fuse.js documented `limit` option: a search with
`limit: 30` returns at most 30 hits per level. -/
def FuseCap30 (env : Env) : Prop :=
  (∀ t, (env.districtFuse t 30).length ≤ 30) ∧
  (∀ t, (env.countyFuse t 30).length ≤ 30) ∧
  (∀ t, (env.subCountyFuse t 30).length ≤ 30) ∧
  (∀ t, (env.parishFuse t 30).length ≤ 30) ∧
  (∀ t, (env.villageFuse t 30).length ≤ 30)

/-! ## Concrete environments for witnesses and counterexamples -/

/-- A fuzzy oracle with no hits. -/
def noHits (α : Type) : String → Int → List (α × ℚ) :=
  fun _ _ => []

/-- An environment with one district and silent fuzzy indexes. -/
def envBase : Env :=
  ⟨[⟨"d1", "Kampala"⟩], [], [], [], [],
    noHits District, noHits County, noHits SubCounty, noHits Parish,
    noHits Village⟩

/-- Malformed reference data: two villages whose parish `"p1"` does not
exist. -/
def envDangling : Env :=
  ⟨[], [], [], [], [⟨"v1", "Va", "p1"⟩, ⟨"v2", "Vb", "p1"⟩],
    noHits District, noHits County, noHits SubCounty, noHits Parish,
    noHits Village⟩

/-- Candidate for village `v1` of `envDangling`. -/
def rv1 : SearchResult :=
  ⟨.village, "v1", "Va", 1, none, ⟨some "Va", none, none, none, none⟩⟩

/-- Candidate for village `v2` of `envDangling`. -/
def rv2 : SearchResult :=
  ⟨.village, "v2", "Vb", 1, none, ⟨some "Vb", none, none, none, none⟩⟩

/-- Fully well-formed environment: one unit per level, all links resolving. -/
def envWF : Env :=
  ⟨[⟨"d1", "D"⟩], [⟨"c1", "C", "d1"⟩], [⟨"s1", "S", "c1"⟩],
    [⟨"p1", "P", "s1"⟩], [⟨"v1", "V", "p1"⟩],
    noHits District, noHits County, noHits SubCounty, noHits Parish,
    noHits Village⟩

/-- Environment whose district index reports two perfect hits for any term. -/
def envTwoHits : Env :=
  ⟨[], [], [], [], [],
    (fun _ _ => [(⟨"d1", "Aa"⟩, 0), (⟨"d2", "Ab"⟩, 0)]),
    noHits County, noHits SubCounty, noHits Parish, noHits Village⟩

/-- Environment whose district index reports one hit with dissimilarity 1/3
for the term `"a"`. -/
def envOneHit : Env :=
  ⟨[], [], [], [], [],
    (fun t _ => if t = "a" then [(⟨"d1", "A"⟩, 1/3)] else []),
    noHits County, noHits SubCounty, noHits Parish, noHits Village⟩

/-- Environment whose district index reports one exact hit (dissimilarity 0)
named `"Kampala"` for every term. -/
def envExact : Env :=
  ⟨[⟨"d1", "Kampala"⟩], [], [], [], [],
    (fun _ _ => [(⟨"d1", "Kampala"⟩, 0)]),
    noHits County, noHits SubCounty, noHits Parish, noHits Village⟩

/-- The district candidate produced by `envExact` for the term `"Kampla"`. -/
def rKampala : SearchResult :=
  ⟨.district, "d1", "Kampala", 1, some "Kampla",
    ⟨none, none, none, none, some "Kampala"⟩⟩

/-! ## Helper lemmas -/

theorem truthy_beq_eq_sharesNonNull (o1 o2 : Option String) :
    (truthy o1 && o1 == o2) = sharesNonNull o1 o2 := by
  cases o1 <;> cases o2 <;> simp [truthy, sharesNonNull, Bool.and_comm]

theorem sharesNonNull_comm (o1 o2 : Option String) :
    sharesNonNull o1 o2 = sharesNonNull o2 o1 := by
  cases o1 with
  | none => cases o2 <;> rfl
  | some a =>
    cases o2 with
    | none => rfl
    | some b =>
      by_cases h : a = b
      · subst h; rfl
      · simp [sharesNonNull, beq_false_of_ne h, beq_false_of_ne (Ne.symm h)]

/-- `areRelated` in terms of per-level sharing: the source checks L1..L3
*and additionally the L4 (parish) level*. -/
theorem areRelated_eq (env : Env) (r1 r2 : SearchResult) :
    areRelated env r1 r2 =
      (specRelatedL123 env r1 r2 ||
        sharesNonNull (getHierarchyChain env r1.type r1.id).parishId
          (getHierarchyChain env r2.type r2.id).parishId) := by
  simp only [areRelated, specRelatedL123, truthy_beq_eq_sharesNonNull]

theorem foldl_lastFind {p : α → Bool} {x : α} :
    ∀ (l : List α) (acc : Option α),
      l.foldl (fun acc y => if p y then some y else acc) acc = some x →
      (x ∈ l ∧ p x = true) ∨ acc = some x := by
  intro l
  induction l with
  | nil => intro acc h; exact Or.inr h
  | cons a t ih =>
    intro acc h
    simp only [List.foldl_cons] at h
    rcases ih _ h with h1 | h2
    · exact Or.inl ⟨List.mem_cons_of_mem _ h1.1, h1.2⟩
    · by_cases hp : p a = true
      · rw [if_pos hp] at h2
        injection h2 with h3
        subst h3
        exact Or.inl ⟨List.mem_cons_self _ _, hp⟩
      · rw [if_neg hp] at h2
        exact Or.inr h2

theorem lastFind_mem {p : α → Bool} {l : List α} {x : α}
    (h : lastFind p l = some x) : x ∈ l ∧ p x = true := by
  rcases foldl_lastFind l none h with h1 | h2
  · exact h1
  · exact Option.noConfusion h2

theorem jsSlice_length_le (n : Int) (l : List α) :
    (jsSlice n l).length ≤ l.length := by
  unfold jsSlice
  split <;> simp [List.length_take]

theorem jsSlice_sublist (n : Int) (l : List α) :
    (jsSlice n l).Sublist l := by
  unfold jsSlice
  split <;> exact List.take_sublist _ _

/-! ## Claim C2 -/

/-- C2 counterexample: in `envDangling` the two village candidates share
*only* the (dangling) parish identifier `"p1"`, nothing at L1/L2/L3, yet
`areRelated` holds — the source also compares the L4 (parish) level. -/
theorem areRelated_parish_only_cex :
    areRelated envDangling rv1 rv2 = true ∧
    specRelatedL123 envDangling rv1 rv2 = false ∧
    (getHierarchyChain envDangling rv1.type rv1.id).parishId = some "p1" ∧
    (getHierarchyChain envDangling rv2.type rv2.id).parishId = some "p1" := by
  refine ⟨rfl, rfl, rfl, rfl⟩

/-- C2 (amended): two candidates are related iff their hierarchy chains share
a non-null (and non-empty) identifier at the L1 (district), L2 (county),
L3 (sub-county) *or L4 (parish)* level. -/
theorem areRelated_char (env : Env) (r1 r2 : SearchResult) :
    areRelated env r1 r2 = true ↔
      (specRelatedL123 env r1 r2 = true ∨
        sharesNonNull (getHierarchyChain env r1.type r1.id).parishId
          (getHierarchyChain env r2.type r2.id).parishId = true) := by
  rw [areRelated_eq, Bool.or_eq_true]

/-! ## Claim C8 -/

/-- C8: relatedness is symmetric: `areRelated(A, B) == areRelated(B, A)` for
every environment and every pair of candidates. -/
theorem areRelated_symm (env : Env) (r1 r2 : SearchResult) :
    areRelated env r1 r2 = areRelated env r2 r1 := by
  simp only [areRelated, truthy_beq_eq_sharesNonNull]
  rw [sharesNonNull_comm (getHierarchyChain env r1.type r1.id).districtId,
    sharesNonNull_comm (getHierarchyChain env r1.type r1.id).countyId,
    sharesNonNull_comm (getHierarchyChain env r1.type r1.id).subCountyId,
    sharesNonNull_comm (getHierarchyChain env r1.type r1.id).parishId]

/-! ## Claim C1 -/

theorem isWS_not_sep {c : Char} (h : isWS c = true) :
    (c = ',' || c = ';') = false := by
  simp only [isWS, Bool.or_eq_true, decide_eq_true_eq] at h
  rcases h with ((((h | h) | h) | h) | h) | h <;> subst h <;> rfl

theorem isWS_toLower {c : Char} (h : isWS c = true) : c.toLower = c := by
  simp only [isWS, Bool.or_eq_true, decide_eq_true_eq] at h
  rcases h with ((((h | h) | h) | h) | h) | h <;> subst h <;> rfl

/-- On an all-whitespace input no separator ever matches, so the splitter
yields a single (all-whitespace) segment. -/
theorem splitGo_ws : ∀ (l : List Char), (∀ c ∈ l, isWS c = true) →
    ∀ seg, splitGo l seg = [seg.reverse ++ l] := by
  intro l
  induction l with
  | nil => intro _ seg; simp [splitGo]
  | cons c cs ih =>
    intro hl seg
    have hc : isWS c = true := hl c (List.mem_cons_self _ _)
    have hcs : ∀ x ∈ cs, isWS x = true := fun x hx => hl x (List.mem_cons_of_mem _ hx)
    have hdrop : cs.dropWhile isWS = [] := by
      rw [List.dropWhile_eq_nil_iff]
      exact hcs
    rw [splitGo]
    rw [if_neg (by simp [isWS_not_sep hc])]
    have hmw : matchWordSep (c :: cs) = none := by
      rw [matchWordSep]
      rw [if_pos hc]
      split
      · next heq => rw [hdrop] at heq; exact List.noConfusion heq
      · rfl
    rw [hmw]
    rw [ih hcs (c :: seg)]
    simp

/-- An empty or all-whitespace query parses to zero terms. -/
theorem parseQuery_ws (q : String) (h : ∀ c ∈ q.data, isWS c = true) :
    parseQuery q = [] := by
  unfold parseQuery
  rw [splitGo_ws q.data h []]
  have htrim : trimChars q.data = [] := by
    unfold trimChars
    rw [List.dropWhile_eq_nil_iff.mpr h]
    rfl
  simp [htrim]

/-- C1: for an empty or whitespace-only query, `exactSearchAdministrativeUnits`
returns an empty list, but `searchAdministrativeUnits` does *not* return an
empty result: with zero parsed terms the multi-term branch evaluates
`termResults[0].matches` on `undefined` and throws a `TypeError`
(modelled as `none`). -/
theorem emptyQuery_behaviour (env : Env) (q : String) (maxResults : Int)
    (h : ∀ c ∈ q.data, isWS c = true) :
    searchAdministrativeUnits env q maxResults = none ∧
    exactSearchAdministrativeUnits env q = [] := by
  constructor
  · unfold searchAdministrativeUnits
    rw [parseQuery_ws q h]
  · unfold exactSearchAdministrativeUnits
    have hlow : ∀ c ∈ (lowerStr q).data, isWS c = true := by
      intro c hc
      simp only [lowerStr, List.mem_map] at hc
      obtain ⟨a, ha, rfl⟩ := hc
      rw [isWS_toLower (h a ha)]
      exact h a ha
    have htrim : strTrim (lowerStr q) = "" := by
      unfold strTrim trimChars
      rw [List.dropWhile_eq_nil_iff.mpr hlow]
      rfl
    rw [htrim]
    simp

/-- C1 witness: the crash and the empty exact result, evaluated on the empty
and an all-whitespace query against a concrete environment. -/
theorem emptyQuery_behaviour_witness :
    (searchAdministrativeUnits envBase "" 100 = none ∧
      exactSearchAdministrativeUnits envBase "" = []) ∧
    (searchAdministrativeUnits envBase "  " 100 = none ∧
      exactSearchAdministrativeUnits envBase "  " = []) :=
  ⟨emptyQuery_behaviour envBase "" 100 (by decide),
    emptyQuery_behaviour envBase "  " 100 (by decide)⟩

/-! ## Claim C7 -/

/-- C7 counterexample: for the district level an *unknown* identifier does
not yield an empty chain — the source returns `{ districtId: id }` without
consulting the district map. -/
theorem chain_unknown_district_cex :
    knownAt envDangling .district "zzz" = false ∧
    getHierarchyChain envDangling .district "zzz" ≠ emptyChain := by
  decide

/-- C7 (amended): `getHierarchyChain` never errors and
(1) a known identifier appears at its own level in the chain;
(2) an unknown identifier yields the empty chain at every level *except*
    district, where the chain is `{ districtId: id }` unvalidated;
(3) above the unit's own level a missing link truncates everything above it;
(4) on well-formed reference data a known unit's chain carries an identifier
    at every ancestor level up to L1. -/
theorem chain_char (env : Env) (lv : Level) (id : String) :
    (knownAt env lv id = true → ownId (getHierarchyChain env lv id) lv = some id) ∧
    (knownAt env lv id = false →
      getHierarchyChain env lv id =
        (match lv with
         | .district => ⟨some id, none, none, none, none⟩
         | _ => emptyChain)) ∧
    truncUp (getHierarchyChain env lv id) lv ∧
    (WellFormedEnv env → knownAt env lv id = true →
      ancestorsSome (getHierarchyChain env lv id) lv) := by
  cases lv with
  | district =>
    exact ⟨fun _ => rfl, fun _ => rfl, trivial, fun _ _ => trivial⟩
  | county =>
    cases hc : cGet env id with
    | none =>
      refine ⟨?_, ?_, trivial, ?_⟩
      · intro h; simp [knownAt, hc] at h
      · intro _; simp [getHierarchyChain, hc]
      · intro _ h; simp [knownAt, hc] at h
    | some c =>
      refine ⟨?_, ?_, trivial, ?_⟩
      · intro _; simp [getHierarchyChain, hc, ownId]
      · intro h; simp [knownAt, hc] at h
      · intro _ _; simp [getHierarchyChain, hc, ancestorsSome]
  | subCounty =>
    cases hs : sGet env id with
    | none =>
      refine ⟨?_, ?_, ?_, ?_⟩
      · intro h; simp [knownAt, hs] at h
      · intro _; simp [getHierarchyChain, hs]
      · intro _; simp [getHierarchyChain, hs, emptyChain]
      · intro _ h; simp [knownAt, hs] at h
    | some sc =>
      refine ⟨?_, ?_, ?_, ?_⟩
      · intro _; simp [getHierarchyChain, hs, ownId]
      · intro h; simp [knownAt, hs] at h
      · intro h; simp [getHierarchyChain, hs] at h
      · intro hwf _
        obtain ⟨hmem, _⟩ := lastFind_mem hs
        obtain ⟨c, hceq⟩ := Option.isSome_iff_exists.mp (hwf.2.1 sc hmem)
        simp [getHierarchyChain, hs, hceq, ancestorsSome]
  | parish =>
    cases hp : pGet env id with
    | none =>
      refine ⟨?_, ?_, ?_, ?_⟩
      · intro h; simp [knownAt, hp] at h
      · intro _; simp [getHierarchyChain, hp]
      · exact ⟨fun _ => by simp [getHierarchyChain, hp, emptyChain],
          fun _ => by simp [getHierarchyChain, hp, emptyChain]⟩
      · intro _ h; simp [knownAt, hp] at h
    | some p =>
      refine ⟨?_, ?_, ⟨?_, ?_⟩, ?_⟩
      · intro _; simp [getHierarchyChain, hp, ownId]
      · intro h; simp [knownAt, hp] at h
      · intro h; simp [getHierarchyChain, hp] at h
      · intro h
        cases hsg : sGet env p.subcounty with
        | none => simp [getHierarchyChain, hp, hsg]
        | some s => simp [getHierarchyChain, hp, hsg] at h
      · intro hwf _
        obtain ⟨hpm, _⟩ := lastFind_mem hp
        obtain ⟨s, hseq⟩ := Option.isSome_iff_exists.mp (hwf.2.2.1 p hpm)
        obtain ⟨hsm, _⟩ := lastFind_mem hseq
        obtain ⟨c, hceq⟩ := Option.isSome_iff_exists.mp (hwf.2.1 s hsm)
        simp [getHierarchyChain, hp, hseq, hceq, ancestorsSome]
  | village =>
    cases hv : vFind env id with
    | none =>
      refine ⟨?_, ?_, ?_, ?_⟩
      · intro h; simp [knownAt, hv] at h
      · intro _; simp [getHierarchyChain, hv]
      · exact ⟨fun _ => by simp [getHierarchyChain, hv, emptyChain],
          fun _ => by simp [getHierarchyChain, hv, emptyChain],
          fun _ => by simp [getHierarchyChain, hv, emptyChain]⟩
      · intro _ h; simp [knownAt, hv] at h
    | some v =>
      refine ⟨?_, ?_, ⟨?_, ?_, ?_⟩, ?_⟩
      · intro _; simp [getHierarchyChain, hv, ownId]
      · intro h; simp [knownAt, hv] at h
      · intro h; simp [getHierarchyChain, hv] at h
      · intro h
        cases hpg : pGet env v.parish with
        | none => simp [getHierarchyChain, hv, hpg]
        | some p => simp [getHierarchyChain, hv, hpg] at h
      · intro h
        cases hpg : pGet env v.parish with
        | none => simp [getHierarchyChain, hv, hpg]
        | some p =>
          cases hsg : sGet env p.subcounty with
          | none => simp [getHierarchyChain, hv, hpg, hsg]
          | some s => simp [getHierarchyChain, hv, hpg, hsg] at h
      · intro hwf _
        have hvm : v ∈ env.villages := List.mem_of_find?_eq_some hv
        obtain ⟨p, hpeq⟩ := Option.isSome_iff_exists.mp (hwf.2.2.2 v hvm)
        obtain ⟨hpm, _⟩ := lastFind_mem hpeq
        obtain ⟨s, hseq⟩ := Option.isSome_iff_exists.mp (hwf.2.2.1 p hpm)
        obtain ⟨hsm, _⟩ := lastFind_mem hseq
        obtain ⟨c, hceq⟩ := Option.isSome_iff_exists.mp (hwf.2.1 s hsm)
        simp [getHierarchyChain, hv, hpeq, hseq, hceq, ancestorsSome]

/-- C7 witness: amended statement evaluated in a concrete well-formed
environment for a known village and an unknown county. -/
theorem chain_char_witness :
    ownId (getHierarchyChain envWF .village "v1") .village = some "v1" ∧
    getHierarchyChain envWF .county "nope" = emptyChain ∧
    ancestorsSome (getHierarchyChain envWF .village "v1") .village := by
  have hwf : WellFormedEnv envWF := by
    refine ⟨?_, ?_, ?_, ?_⟩ <;> decide
  refine ⟨(chain_char envWF .village "v1").1 (by decide), ?_,
    (chain_char envWF .village "v1").2.2.2 hwf (by decide)⟩
  exact (chain_char envWF .county "nope").2.1 (by decide)

/-! ## Claim C6 -/

theorem seedStep_found {env : Env} {seed : SearchResult}
    {pool : List SearchResult} {m : SearchResult} {st : Nat × ℚ × ℚ}
    (hf : pool.find? (fun r => areRelated env seed r) = some m) :
    seedStep env seed st pool = (st.1 + 1, st.2.1 + m.score, 3/2) := by
  unfold seedStep; rw [hf]

theorem seedStep_noneFound {env : Env} {seed : SearchResult}
    {pool : List SearchResult} {st : Nat × ℚ × ℚ}
    (hf : pool.find? (fun r => areRelated env seed r) = none) :
    seedStep env seed st pool = st := by
  unfold seedStep; rw [hf]

/-- Declarative characterization of the per-seed loop: starting from
`(mc, ts, hb)`, the final `matchCount` adds one per pool with a related
candidate, the final `totalScore` adds each pool's first related similarity,
and the final `hierarchyBonus` is `1.5` exactly when some pool had a related
candidate. -/
theorem seedFold_char (env : Env) (seed : SearchResult) :
    ∀ (pools : List (List SearchResult)) (mc : Nat) (ts hb : ℚ),
      pools.foldl (seedStep env seed) (mc, ts, hb) =
        (mc + pools.countP (poolHasRelated env seed),
          ts + (pools.map (firstRelatedScore env seed)).sum,
          if pools.any (fun p => poolHasRelated env seed p) then 3/2 else hb) := by
  intro pools
  induction pools with
  | nil => intro mc ts hb; simp
  | cons pool ps ih =>
    intro mc ts hb
    rw [List.foldl_cons]
    cases hf : pool.find? (fun r => areRelated env seed r) with
    | some m =>
      have hhas : poolHasRelated env seed pool = true := by
        unfold poolHasRelated
        rw [List.any_eq_true]
        exact ⟨m, List.mem_of_find?_eq_some hf, List.find?_some hf⟩
      have hfs : firstRelatedScore env seed pool = m.score := by
        unfold firstRelatedScore; rw [hf]
      rw [seedStep_found hf, ih]
      simp only [List.countP_cons, List.map_cons, List.sum_cons, List.any_cons,
        hhas, hfs, if_pos, Bool.true_or, if_true, ite_self, Prod.mk.injEq]
      and_intros <;> first | trivial | omega | ring
    | none =>
      have hhas : poolHasRelated env seed pool = false := by
        unfold poolHasRelated
        rw [List.any_eq_false]
        exact List.find?_eq_none.mp hf
      have hfs : firstRelatedScore env seed pool = 0 := by
        unfold firstRelatedScore; rw [hf]
      rw [seedStep_noneFound hf, ih]
      simp only [List.countP_cons, List.map_cons, List.sum_cons, List.any_cons,
        hhas, hfs, Bool.false_or, if_neg, Prod.mk.injEq]
      and_intros <;> first | trivial | omega | ring

/-- C6: in the multi-term branch only candidates of the first term's pool
become seeds, and each seed's combined entry satisfies the spec's equations:
`matchCount = 1 +` (number of later pools with a related candidate),
`hierarchyBonus = 1.5` iff any related match was found (else `1.0`),
and `combinedScore = (totalScore / N) * hierarchyBonus * (matchCount / N)`
with `totalScore =` seed similarity plus each pool's first related
similarity. -/
theorem multiCombined_char (env : Env) (t1 t2 : String) (rest : List String) :
    multiCombined env (t1 :: t2 :: rest) =
      (fuzzySearchSingleTerm env t1 30).map
        (combineSeed env (t1 :: t2 :: rest).length
          ((t2 :: rest).map (fun t => fuzzySearchSingleTerm env t 30))) ∧
    ∀ (n : Nat) (pools : List (List SearchResult)) (seed : SearchResult),
      combineSeed env n pools seed =
        ⟨seed,
          1 + pools.countP (poolHasRelated env seed),
          (if pools.any (fun p => poolHasRelated env seed p) then 3/2 else 1),
          ((seed.score + (pools.map (firstRelatedScore env seed)).sum) / (n : ℚ)) *
            (if pools.any (fun p => poolHasRelated env seed p) then (3/2 : ℚ) else 1) *
            (((1 + pools.countP (poolHasRelated env seed) : Nat) : ℚ) / (n : ℚ))⟩ := by
  constructor
  · simp [multiCombined]
  · intro n pools seed
    unfold combineSeed
    rw [seedFold_char env seed pools 1 seed.score 1]

/-! ## Comparator properties -/

theorem scoreLE_trans : ∀ a b c : SearchResult,
    scoreLE a b = true → scoreLE b c = true → scoreLE a c = true := by
  intro a b c hab hbc
  simp only [scoreLE, decide_eq_true_eq] at *
  exact le_trans hbc hab

theorem scoreLE_total : ∀ a b : SearchResult,
    (scoreLE a b || scoreLE b a) = true := by
  intro a b
  simp only [scoreLE, Bool.or_eq_true, decide_eq_true_eq]
  exact le_total b.score a.score

theorem rankLE_trans : ∀ a b c : CombinedResult,
    rankLE a b = true → rankLE b c = true → rankLE a c = true := by
  intro a b c hab hbc
  simp only [rankLE, decide_eq_true_eq] at *
  rcases hab with h1 | ⟨h1, h1s⟩ <;> rcases hbc with h2 | ⟨h2, h2s⟩
  · exact Or.inl (by omega)
  · exact Or.inl (by omega)
  · exact Or.inl (by omega)
  · exact Or.inr ⟨by omega, le_trans h2s h1s⟩

theorem rankLE_total : ∀ a b : CombinedResult,
    (rankLE a b || rankLE b a) = true := by
  intro a b
  simp only [rankLE, Bool.or_eq_true, decide_eq_true_eq]
  rcases Nat.lt_trichotomy a.matchCount b.matchCount with h | h | h
  · exact Or.inr (Or.inl h)
  · rcases le_total b.combinedScore a.combinedScore with hs | hs
    · exact Or.inl (Or.inr ⟨h, hs⟩)
    · exact Or.inr (Or.inr ⟨h.symm, hs⟩)
  · exact Or.inl (Or.inl h)

/-! ## Claim C5 -/

/-- C5: the multi-term list is sorted by `matchCount` descending first, then
`combinedScore` descending, and consequently `matchedTerms` is monotonically
non-increasing across the returned (truncated and mapped) result list. -/
theorem multiSorted_monotone (env : Env) (q : String) (maxResults : Int)
    (t1 t2 : String) (rest : List String)
    (hq : parseQuery q = t1 :: t2 :: rest) :
    (jsSlice maxResults
        ((multiCombined env (t1 :: t2 :: rest)).mergeSort rankLE)).Pairwise
      (fun a b => b.matchCount < a.matchCount ∨
        (a.matchCount = b.matchCount ∧ b.combinedScore ≤ a.combinedScore)) ∧
    (∀ out, searchAdministrativeUnits env q maxResults =
        some (.multiTerm out) →
      out.Pairwise
        (fun a b => b.matchInfo.matchedTerms ≤ a.matchInfo.matchedTerms)) := by
  have hsorted := List.sorted_mergeSort rankLE_trans rankLE_total
    (multiCombined env (t1 :: t2 :: rest))
  have hslice := List.Pairwise.sublist
    (jsSlice_sublist maxResults ((multiCombined env (t1 :: t2 :: rest)).mergeSort rankLE))
    hsorted
  constructor
  · exact hslice.imp (fun h => by simpa [rankLE] using h)
  · intro out hout
    simp only [searchAdministrativeUnits, hq, Option.some.injEq] at hout
    have hmul : multiSearch env (t1 :: t2 :: rest) maxResults = out := by
      cases hout
      rfl
    rw [← hmul]
    unfold multiSearch
    rw [List.pairwise_map]
    refine hslice.imp (fun h => ?_)
    have h' := by simpa [rankLE] using h
    rcases h' with h1 | ⟨h1, _⟩ <;> simp [toRanked] <;> omega

/-- C5 witness: concrete two-term query. -/
theorem multiSorted_monotone_witness :
    ((jsSlice 100 ((multiCombined envBase ["a", "b"]).mergeSort rankLE)).Pairwise
      (fun a b => b.matchCount < a.matchCount ∨
        (a.matchCount = b.matchCount ∧ b.combinedScore ≤ a.combinedScore))) ∧
    (∀ out, searchAdministrativeUnits envBase "a,b" 100 =
        some (.multiTerm out) →
      out.Pairwise
        (fun a b => b.matchInfo.matchedTerms ≤ a.matchInfo.matchedTerms)) :=
  multiSorted_monotone envBase "a,b" 100 "a" "b" []
    (by simp +decide [parseQuery, splitGo])

/-! ## Claim C4 -/

/-- C4 (amended): single-term results are sorted by similarity descending and
truncated by `slice(0, limit)`: at most `limit` entries for `limit ≥ 0`,
empty for `limit = 0`, but for *negative* `limit` the list keeps all matches
except the last `|limit|` (in general not empty). -/
theorem singleSorted_limit (env : Env) (q : String) (t : String)
    (maxResults : Int) (hq : parseQuery q = [t]) :
    searchAdministrativeUnits env q maxResults =
      some (.singleTerm (singleSearch env t maxResults)) ∧
    (singleSearch env t maxResults).Pairwise (fun a b => b.score ≤ a.score) ∧
    (0 ≤ maxResults →
      (singleSearch env t maxResults).length ≤ maxResults.toNat) ∧
    (maxResults = 0 → singleSearch env t maxResults = []) ∧
    (maxResults < 0 → (singleSearch env t maxResults).length =
      (fuzzySearchSingleTerm env t maxResults).length - maxResults.natAbs) := by
  refine ⟨?_, ?_, ?_, ?_, ?_⟩
  · simp [searchAdministrativeUnits, hq]
  · have hsorted := List.sorted_mergeSort scoreLE_trans scoreLE_total
      (fuzzySearchSingleTerm env t maxResults)
    have hslice := List.Pairwise.sublist
      (jsSlice_sublist maxResults
        ((fuzzySearchSingleTerm env t maxResults).mergeSort scoreLE))
      hsorted
    exact hslice.imp (fun h => by simpa [scoreLE] using h)
  · intro h
    unfold singleSearch jsSlice
    rw [if_neg (by omega)]
    simp only [List.length_take]
    omega
  · intro h
    subst h
    simp [singleSearch, jsSlice]
  · intro h
    unfold singleSearch jsSlice
    rw [if_pos h]
    rw [List.length_take, List.length_mergeSort]
    omega

/-- C4 counterexample: with `limit = -1 ≤ 0` the single-term search returns a
*non-empty* list — `slice(0, -1)` keeps all matches but the last one. -/
theorem singleNegLimit_cex :
    searchAdministrativeUnits envTwoHits "ab" (-1) =
      some (.singleTerm [⟨.district, "d1", "Aa", 1, some "ab",
        ⟨none, none, none, none, none⟩⟩]) ∧
    searchAdministrativeUnits envTwoHits "ab" (-1) ≠
      some (.singleTerm []) := by
  have hq : parseQuery "ab" = ["ab"] := by simp +decide [parseQuery, splitGo]
  have he : searchAdministrativeUnits envTwoHits "ab" (-1) =
      some (.singleTerm [⟨.district, "d1", "Aa", 1, some "ab",
        ⟨none, none, none, none, none⟩⟩]) := by
    rw [searchAdministrativeUnits, hq]
    simp +decide [singleSearch, jsSlice, List.mergeSort, fuzzySearchSingleTerm,
      envTwoHits, noHits, scoreLE, getDistrictHierarchy, dGet, lastFind]
  refine ⟨he, ?_⟩
  rw [he]
  simp

/-- C4 witness: amended statement at a concrete environment and limit. -/
theorem singleSorted_limit_witness :
    (searchAdministrativeUnits envTwoHits "ab" 1 =
      some (.singleTerm (singleSearch envTwoHits "ab" 1))) ∧
    ((singleSearch envTwoHits "ab" 1).Pairwise (fun a b => b.score ≤ a.score)) ∧
    ((0 : Int) ≤ 1 → (singleSearch envTwoHits "ab" 1).length ≤ (1 : Int).toNat) ∧
    ((1 : Int) = 0 → singleSearch envTwoHits "ab" 1 = []) ∧
    ((1 : Int) < 0 → (singleSearch envTwoHits "ab" 1).length =
      (fuzzySearchSingleTerm envTwoHits "ab" 1).length - (1 : Int).natAbs) :=
  singleSorted_limit envTwoHits "ab" "ab" 1 (by simp +decide [parseQuery, splitGo])

/-! ## Claim C3 -/

theorem toFixed3_one_sixth : toFixed3 (1/6) = 167/1000 := by
  have hf : round ((1 : ℚ)/6 * 1000) = 167 := by
    rw [round_eq]
    rw [show ((1 : ℚ)/6 * 1000 + 1/2) = 1003/6 by ring]
    rw [Int.floor_eq_iff]
    norm_num
  rw [toFixed3, hf]
  norm_num

/-- C3 counterexample: the returned `confidence` is `combinedScore.toFixed(3)`
(numerically `167/1000` here), not the float `combinedScore = 1/6` itself. -/
theorem confidence_not_combinedScore_cex :
    searchAdministrativeUnits envOneHit "a,b" 100 =
      some (.multiTerm [⟨.district, "d1", "A", 2/3,
        ⟨none, none, none, none, none⟩, ⟨1, 2, 167/1000⟩⟩]) ∧
    (multiCombined envOneHit ["a", "b"]).map CombinedResult.combinedScore =
      [1/6] ∧
    (167/1000 : ℚ) ≠ 1/6 := by
  have hq : parseQuery "a,b" = ["a", "b"] := by simp +decide [parseQuery, splitGo]
  have hcomb : multiCombined envOneHit ["a", "b"] =
      [⟨⟨.district, "d1", "A", 2/3, some "a", ⟨none, none, none, none, none⟩⟩,
        1, 1, 1/6⟩] := by
    simp +decide [multiCombined, fuzzySearchSingleTerm, envOneHit, noHits,
      combineSeed, seedStep, getDistrictHierarchy, dGet, lastFind]
    norm_num
  refine ⟨?_, by rw [hcomb]; rfl, by norm_num⟩
  simp only [searchAdministrativeUnits, hq]
  unfold multiSearch
  rw [hcomb]
  simp +decide [List.mergeSort, jsSlice, toRanked]
  rw [show ((6 : ℚ))⁻¹ = 1/6 by norm_num]
  exact toFixed3_one_sixth

/-- C3 (amended): every returned multi-term result carries exactly its seed's
fields plus `matchInfo = { matchedTerms: matchCount, totalTerms: N,
confidence: combinedScore.toFixed(3) }` — the confidence is the seed's
`combinedScore` rounded to three decimals (and returned as a string), not the
raw float, and the seed's `matchedTerm` field is dropped. -/
theorem multiResult_shape (env : Env) (q : String) (maxResults : Int)
    (t1 t2 : String) (rest : List String)
    (hq : parseQuery q = t1 :: t2 :: rest) (out : List RankedResult)
    (hout : searchAdministrativeUnits env q maxResults = some (.multiTerm out)) :
    ∀ r ∈ out, ∃ c ∈ multiCombined env (t1 :: t2 :: rest),
      r = ⟨c.base.type, c.base.id, c.base.name, c.base.score, c.base.hier,
            ⟨c.matchCount, (t1 :: t2 :: rest).length,
              toFixed3 c.combinedScore⟩⟩ := by
  simp only [searchAdministrativeUnits, hq, Option.some.injEq] at hout
  have hmul : multiSearch env (t1 :: t2 :: rest) maxResults = out := by
    cases hout; rfl
  intro r hr
  rw [← hmul] at hr
  unfold multiSearch at hr
  rw [List.mem_map] at hr
  obtain ⟨c, hc, rfl⟩ := hr
  refine ⟨c, ?_, rfl⟩
  have h1 : c ∈ (multiCombined env (t1 :: t2 :: rest)).mergeSort rankLE :=
    (jsSlice_sublist _ _).subset hc
  exact (List.mergeSort_perm _ rankLE).subset h1

/-- C3 witness: amended statement evaluated on a concrete multi-term query. -/
theorem multiResult_shape_witness :
    ∃ c ∈ multiCombined envOneHit ["a", "b"],
      (⟨.district, "d1", "A", 2/3, ⟨none, none, none, none, none⟩,
        ⟨1, 2, 167/1000⟩⟩ : RankedResult) =
        ⟨c.base.type, c.base.id, c.base.name, c.base.score, c.base.hier,
          ⟨c.matchCount, (["a", "b"] : List String).length,
            toFixed3 c.combinedScore⟩⟩ := by
  have hq : parseQuery "a,b" = ["a", "b"] := by simp +decide [parseQuery, splitGo]
  have hcomb : multiCombined envOneHit ["a", "b"] =
      [⟨⟨.district, "d1", "A", 2/3, some "a", ⟨none, none, none, none, none⟩⟩,
        1, 1, 1/6⟩] := by
    simp +decide [multiCombined, fuzzySearchSingleTerm, envOneHit, noHits,
      combineSeed, seedStep, getDistrictHierarchy, dGet, lastFind]
    norm_num
  have hout : searchAdministrativeUnits envOneHit "a,b" 100 =
      some (.multiTerm [⟨.district, "d1", "A", 2/3,
        ⟨none, none, none, none, none⟩, ⟨1, 2, 167/1000⟩⟩]) := by
    simp only [searchAdministrativeUnits, hq]
    unfold multiSearch
    rw [hcomb]
    simp +decide [List.mergeSort, jsSlice, toRanked]
    rw [show ((6 : ℚ))⁻¹ = 1/6 by norm_num]
    exact toFixed3_one_sixth
  exact multiResult_shape envOneHit "a,b" 100 "a" "b" [] hq _ hout _
    (List.mem_singleton.mpr rfl)

/-! ## Claim C9 -/

theorem score_conclusion {sc : ℚ} {nm term : String} (h0 : 0 ≤ sc)
    (h4 : sc < 2/5) (hex : lowerStr term = lowerStr nm → sc = 0) :
    (∃ s : ℚ, 0 ≤ s ∧ s < 2/5 ∧ 1 - sc = 1 - s) ∧
    3/5 < 1 - sc ∧ 1 - sc ≤ 1 ∧
    (lowerStr term = lowerStr nm → 1 - sc = 1) :=
  ⟨⟨sc, h0, h4, rfl⟩, by linarith, by linarith,
    fun hx => by rw [hex hx]; norm_num⟩

/-- C9: under the spec's matching policy (dissimilarity in `[0, 0.4)`, exact
case-insensitive match scores 0), every candidate produced by
`fuzzySearchSingleTerm` carries similarity `1 - dissimilarity`, so
`0.6 < similarity ≤ 1`, and an exact case-insensitive name match yields
similarity exactly 1. -/
theorem fuzzyScores (env : Env) (hspec : FuseScoreSpec env) (term : String)
    (maxResults : Int) (r : SearchResult)
    (hr : r ∈ fuzzySearchSingleTerm env term maxResults) :
    (∃ s : ℚ, 0 ≤ s ∧ s < 2/5 ∧ r.score = 1 - s) ∧
    3/5 < r.score ∧ r.score ≤ 1 ∧
    (lowerStr term = lowerStr r.name → r.score = 1) := by
  obtain ⟨hd, hc, hs, hp, hv⟩ := hspec
  unfold fuzzySearchSingleTerm at hr
  simp only [List.mem_append, List.mem_map] at hr
  rcases hr with (((⟨it, hit, rfl⟩ | ⟨it, hit, rfl⟩) | ⟨it, hit, rfl⟩) |
    ⟨it, hit, rfl⟩) | ⟨it, hit, rfl⟩
  · obtain ⟨h0, h4, hex⟩ := hd term maxResults it hit
    exact score_conclusion h0 h4 hex
  · obtain ⟨h0, h4, hex⟩ := hc term maxResults it hit
    exact score_conclusion h0 h4 hex
  · obtain ⟨h0, h4, hex⟩ := hs term maxResults it hit
    exact score_conclusion h0 h4 hex
  · obtain ⟨h0, h4, hex⟩ := hp term maxResults it hit
    exact score_conclusion h0 h4 hex
  · obtain ⟨h0, h4, hex⟩ := hv term maxResults it hit
    exact score_conclusion h0 h4 hex

theorem envExact_scoreSpec : FuseScoreSpec envExact := by
  refine ⟨?_, ?_, ?_, ?_, ?_⟩ <;> intro t n it hit
  · rw [show envExact.districtFuse t n = [(⟨"d1", "Kampala"⟩, 0)] from rfl,
      List.mem_singleton] at hit
    subst hit
    exact ⟨le_refl 0, by norm_num, fun _ => rfl⟩
  all_goals simp [envExact, noHits] at hit

/-- C9 witness: the misspelled query term `"Kampla"` against `envExact`. -/
theorem fuzzyScores_witness :
    (∃ s : ℚ, 0 ≤ s ∧ s < 2/5 ∧ rKampala.score = 1 - s) ∧
    3/5 < rKampala.score ∧ rKampala.score ≤ 1 ∧
    (lowerStr "Kampla" = lowerStr rKampala.name → rKampala.score = 1) :=
  fuzzyScores envExact envExact_scoreSpec "Kampla" 50 rKampala
    (by simp [fuzzySearchSingleTerm, envExact, noHits, getDistrictHierarchy,
      dGet, lastFind, rKampala])

/-! ## Claim C10 -/

/-- C10: in the multi-term branch each term's pool is fetched with the fixed
per-level cap 30 — at most 150 candidates per pool regardless of the caller's
limit — so the multi-term result list never exceeds 150 entries, for every
`maxResults`. -/
theorem multiPoolCap (env : Env) (hcap : FuseCap30 env) (q : String)
    (maxResults : Int) (t1 t2 : String) (rest : List String)
    (hq : parseQuery q = t1 :: t2 :: rest) :
    (∀ t, (fuzzySearchSingleTerm env t 30).length ≤ 150) ∧
    (∀ out, searchAdministrativeUnits env q maxResults =
        some (.multiTerm out) → out.length ≤ 150) := by
  obtain ⟨h1, h2, h3, h4, h5⟩ := hcap
  have hpool : ∀ t, (fuzzySearchSingleTerm env t 30).length ≤ 150 := by
    intro t
    unfold fuzzySearchSingleTerm
    simp only [List.length_append, List.length_map]
    have := h1 t; have := h2 t; have := h3 t; have := h4 t; have := h5 t
    omega
  refine ⟨hpool, ?_⟩
  intro out hout
  simp only [searchAdministrativeUnits, hq, Option.some.injEq] at hout
  have hmul : multiSearch env (t1 :: t2 :: rest) maxResults = out := by
    cases hout; rfl
  rw [← hmul]
  unfold multiSearch
  rw [List.length_map]
  have hlen : (jsSlice maxResults
      ((multiCombined env (t1 :: t2 :: rest)).mergeSort rankLE)).length ≤
      (multiCombined env (t1 :: t2 :: rest)).length := by
    rw [← @List.length_mergeSort _ rankLE (multiCombined env (t1 :: t2 :: rest))]
    exact jsSlice_length_le _ _
  have hcomblen : (multiCombined env (t1 :: t2 :: rest)).length =
      (fuzzySearchSingleTerm env t1 30).length := by
    simp [multiCombined]
  rw [hcomblen] at hlen
  exact le_trans hlen (hpool t1)

/-- C10 witness: a silent environment trivially satisfies the cap. -/
theorem multiPoolCap_witness :
    (∀ t, (fuzzySearchSingleTerm envBase t 30).length ≤ 150) ∧
    (∀ out, searchAdministrativeUnits envBase "a,b" 200 =
        some (.multiTerm out) → out.length ≤ 150) :=
  multiPoolCap envBase
    ⟨fun _ => by simp [envBase, noHits], fun _ => by simp [envBase, noHits],
      fun _ => by simp [envBase, noHits], fun _ => by simp [envBase, noHits],
      fun _ => by simp [envBase, noHits]⟩
    "a,b" 200 "a" "b" [] (by simp +decide [parseQuery, splitGo])

end LocUg
